import Mathlib

/-!
Verification of the patch-mining and normalization/matching engine of the
Hafix-Replication repository (src/evaluate/eval.py, src/prompts/baseline.py).

Strings are modelled as `List Char`.  Python `re` searches are modelled by
explicit scanning functions; all definitions are structurally recursive (or
fuel-based with provably sufficient fuel) so that they evaluate inside the
kernel.
-/

namespace Hafix

/-- Python whitespace for `str.strip` / `str.split()` and the regex class
in the ASCII range: space, tab, newline, carriage return, vertical tab,
form feed. -/
def pySpace (c : Char) : Bool :=
  c == ' ' || c == '\t' || c == '\n' || c == '\r' || c == '\x0b' || c == '\x0c'

/-- Python `str.strip()`: drop leading and trailing whitespace. -/
def pyStrip (l : List Char) : List Char :=
  ((l.dropWhile pySpace).reverse.dropWhile pySpace).reverse

/-- Helper for `pySplit`: `cur` is the current word accumulated in reverse. -/
def pySplitGo (cur : List Char) : List Char → List (List Char)
  | [] => if cur = [] then [] else [cur.reverse]
  | c :: cs =>
    if pySpace c then
      if cur = [] then pySplitGo [] cs else cur.reverse :: pySplitGo [] cs
    else pySplitGo (c :: cur) cs

/-- Python `str.split()` with no argument: split on runs of whitespace,
discarding empty pieces. -/
def pySplit (l : List Char) : List (List Char) := pySplitGo [] l

/-- Python `' '.join(words)`. -/
def joinWords : List (List Char) → List Char
  | [] => []
  | [w] => w
  | w :: ws => w ++ ' ' :: joinWords ws

/-- The fenced-code marker `"```python"` (eval.py line 15). -/
def fencePython : List Char := "```python".toList

/-- The bare fence marker (eval.py line 16). -/
def fencePlain : List Char := "```".toList

/-- Drop a maximal run of whitespace; the Bool records whether the last
character dropped so far was a newline (so the position after the run is a
line start for a MULTILINE `^`). -/
def dropWsNlGo (lastNl : Bool) : List Char → List Char × Bool
  | [] => ([], lastNl)
  | c :: cs => if pySpace c then dropWsNlGo (c == '\n') cs else (c :: cs, lastNl)

/-- Fuel-driven model of Python `re.sub(r'^<pat>\s*', '', s, flags=re.MULTILINE)`:
scan left to right; at a line-start position where `pat` is a prefix, delete
`pat` together with the following whitespace run (greedy `\s*`, which may
cross newlines); the position after the deleted run is again a line start
exactly when the last deleted whitespace character was a newline.  With
`fuel ≥ length + 1` the fuel never runs out (each step consumes at least one
character since `pat` is nonempty). -/
def subFenceF (pat : List Char) : Nat → Bool → List Char → List Char
  | 0, _, l => l
  | _ + 1, _, [] => []
  | fuel + 1, atLS, c :: cs =>
    if atLS && pat.isPrefixOf (c :: cs) then
      let r := dropWsNlGo false ((c :: cs).drop pat.length)
      subFenceF pat fuel r.2 r.1
    else
      c :: subFenceF pat fuel (c == '\n') cs

/-- Model of one `re.sub(r'^<pat>\s*', '', s, flags=re.MULTILINE)` pass. -/
def subFence (pat : List Char) (s : List Char) : List Char :=
  subFenceF pat (s.length + 1) true s

/-- The comment-truncation step of `normalize_code` (eval.py lines 19-20):
when a `'#'` is present, keep the part before the first one and strip it. -/
def normHash (s : List Char) : List Char :=
  if s.contains '#' then pyStrip (s.takeWhile (fun c => c ≠ '#')) else s

/-- The whitespace-collapsing step of `normalize_code` (eval.py line 22):
`' '.join(code.split())`. -/
def normCollapse (s : List Char) : List Char := joinWords (pySplit s)

/-- Model of `normalize_code` (eval.py lines 13-24): strip `"```python"` then
bare fence markers at line starts, strip, truncate at the first `'#'`
(with a strip) when one is present, then collapse all whitespace runs to
single spaces. -/
def normalize_code (code : List Char) : List Char :=
  normCollapse (normHash (pyStrip (subFence fencePlain (subFence fencePython code))))

/-- Python substring test `pat in l`: some contiguous run of `l` equals `pat`. -/
def isSubstring (pat : List Char) : List Char → Bool
  | [] => pat.isEmpty
  | l@(_ :: rest) => pat.isPrefixOf l || isSubstring pat rest

/-- Replace a double quote (codepoint 34) by a single quote (codepoint 39),
modelling `.replace('"', "'")` in eval.py lines 42-43. -/
def quoteFold (c : Char) : Char :=
  if c = Char.ofNat 34 then Char.ofNat 39 else c

/-- Model of `is_code_correct` (eval.py lines 26-48): normalized equality,
then substring containment of the expected inside the generated, then
equality after quote folding. -/
def is_code_correct (generated expected : List Char) : Bool :=
  if normalize_code generated = normalize_code expected then true
  else if isSubstring (normalize_code expected) (normalize_code generated) then true
  else if (normalize_code generated).map quoteFold = (normalize_code expected).map quoteFold then
    true
  else false

/-- Helper for `splitNl`; `cur` holds the current line in reverse. -/
def splitNlGo (cur : List Char) : List Char → List (List Char)
  | [] => [cur.reverse]
  | c :: cs => if c = '\n' then cur.reverse :: splitNlGo [] cs else splitNlGo (c :: cur) cs

/-- Python `s.split('\n')`: split at every newline, keeping empty pieces
(so the empty string yields one empty line). -/
def splitNl (l : List Char) : List (List Char) := splitNlGo [] l

/-- Model of `is_code_line` (baseline.py lines 55-63): the stripped line is
non-empty and does not start with the comment marker. -/
def is_code_line (l : List Char) : Bool :=
  let s := pyStrip l
  !s.isEmpty && !("#".toList.isPrefixOf s)

/-- Model of `re.search(r'b/(.+)$', line)` on a newline-free line (all call
sites pass pieces of `split('\n')`): find the leftmost position where `'b'`
and `'/'` are followed by at least one character, and capture greedily to the
end of the line.  Note this is the first occurrence of `b/` anywhere in the
line, not the ` b/` separator of the file-marker grammar. -/
def searchBSlash : List Char → Option (List Char)
  | [] => none
  | [_] => none
  | [_, _] => none
  | c :: c2 :: c3 :: rest =>
    if c = 'b' ∧ c2 = '/' then some (c3 :: rest)
    else searchBSlash (c2 :: c3 :: rest)

/-- The file-marker prefix `"diff --git"`. -/
def diffMarker : List Char := "diff --git".toList

/-- A changed file qualifies when its path ends in `.py` and does not contain
`test` case-insensitively (baseline.py line 81). -/
def qualifiesPy (fp : List Char) : Bool :=
  ".py".toList.isSuffixOf fp && !(isSubstring "test".toList (fp.map Char.toLower))

/-- The changed-files list collected by `is_single_line_bug` (baseline.py
lines 75-82): one entry per `diff --git` line whose extracted path qualifies;
duplicates are retained. -/
def changedFiles (patch : List Char) : List (List Char) :=
  (splitNl patch).filterMap fun line =>
    if diffMarker.isPrefixOf line then
      match searchBSlash line with
      | some fp => if qualifiesPy fp then some fp else none
      | none => none
    else none

/-- Removal code lines collected by `is_single_line_bug` (baseline.py lines
93-98): lines starting with `-` but not `---` whose content is a code line,
stripped. -/
def deletedCodeLines (patch : List Char) : List (List Char) :=
  (splitNl patch).filterMap fun line =>
    if "-".toList.isPrefixOf line && !("---".toList.isPrefixOf line)
        && is_code_line (line.drop 1)
    then some (pyStrip (line.drop 1)) else none

/-- Addition code lines collected by `is_single_line_bug` (baseline.py lines
100-103). -/
def addedCodeLines (patch : List Char) : List (List Char) :=
  (splitNl patch).filterMap fun line =>
    if "+".toList.isPrefixOf line && !("+++".toList.isPrefixOf line)
        && is_code_line (line.drop 1)
    then some (pyStrip (line.drop 1)) else none

/-- The success payload of `is_single_line_bug`. -/
structure SingleLineInfo where
  file : List Char
  deleted : List Char
  added : List Char
deriving DecidableEq

/-- Model of `is_single_line_bug` (baseline.py lines 65-113); `(False, None)`
becomes `none` and `(True, info)` becomes `some info`. -/
def is_single_line_bug (patch : List Char) : Option SingleLineInfo :=
  if patch.isEmpty then none
  else
    match changedFiles patch with
    | [fp] =>
      match deletedCodeLines patch, addedCodeLines patch with
      | [d], [a] => some ⟨fp, d, a⟩
      | _, _ => none
    | _ => none

/-- Strip a literal prefix, or fail. -/
def stripPrefixOpt (pat l : List Char) : Option (List Char) :=
  if pat.isPrefixOf l then some (l.drop pat.length) else none

/-- Regex `\s+`: require at least one whitespace character, consume the
maximal run. -/
def spaces1 : List Char → Option (List Char)
  | [] => none
  | c :: cs => if pySpace c then some (cs.dropWhile pySpace) else none

/-- Maximal run of decimal digits, together with the rest. -/
def takeDigits : List Char → List Char × List Char
  | [] => ([], [])
  | c :: cs =>
    if c.isDigit then
      let r := takeDigits cs
      (c :: r.1, r.2)
    else ([], c :: cs)

/-- Regex `,?\d*` right after a maximal digit run: an optional comma followed
by a maximal digit run. -/
def skipCommaDigits : List Char → List Char
  | [] => []
  | c :: cs => if c = ',' then cs.dropWhile Char.isDigit else c :: cs

/-- Decimal value of a digit string. -/
def digitsToNat (ds : List Char) : Nat :=
  ds.foldl (fun n c => n * 10 + (c.toNat - 48)) 0

/-- Match of `@@\s+-(\d+),?\d*\s+\+(\d+),?\d*\s+@@(.*)$` anchored at the
start of (the remainder of) a newline-free line; returns
`(oldStart, newStart, context)`.  All the quantifiers involved are
backtracking-free here, so maximal munch is faithful. -/
def parseHunkAt (l : List Char) : Option (Nat × Nat × List Char) := do
  let l ← stripPrefixOpt "@@".toList l
  let l ← spaces1 l
  let l ← stripPrefixOpt "-".toList l
  let (d1, l) := takeDigits l
  guard (d1 ≠ [])
  let l := skipCommaDigits l
  let l ← spaces1 l
  let l ← stripPrefixOpt "+".toList l
  let (d2, l) := takeDigits l
  guard (d2 ≠ [])
  let l := skipCommaDigits l
  let l ← spaces1 l
  let l ← stripPrefixOpt "@@".toList l
  pure (digitsToNat d1, digitsToNat d2, l)

/-- Model of `re.search` with the hunk-header regex (baseline.py line 179):
try every start position from the left. -/
def searchHunk : List Char → Option (Nat × Nat × List Char)
  | [] => none
  | c :: cs =>
    match parseHunkAt (c :: cs) with
    | some r => some r
    | none => searchHunk cs

/-- Word characters of the regex class `\w`, restricted to the ASCII range. -/
def isWordChar (c : Char) : Bool := c.isAlphanum || c == '_'

/-- Match of `def\s+(\w+)\s*\(` anchored at the start of the remainder;
returns the captured name. -/
def parseDefAt (l : List Char) : Option (List Char) := do
  let l ← stripPrefixOpt "def".toList l
  let l ← spaces1 l
  let w := l.takeWhile isWordChar
  let l := l.dropWhile isWordChar
  guard (w ≠ [])
  let l := l.dropWhile pySpace
  let _ ← stripPrefixOpt "(".toList l
  pure w

/-- Model of `re.search(r'def\s+(\w+)\s*\(', context)` (baseline.py
line 196). -/
def searchDefName : List Char → Option (List Char)
  | [] => none
  | c :: cs =>
    match parseDefAt (c :: cs) with
    | some w => some w
    | none => searchDefName cs

/-- One entry of `changed_functions` (baseline.py lines 189-193). -/
structure FunctionChange where
  buggy_function_name : List Char
  function_before : List Char
  function_after : List Char
deriving DecidableEq

/-- The implicit loop state of `extract_file_info` (baseline.py lines
163-167): collected locations and committed functions, plus the open
function pointer and its line buffers.  The source keeps a separate
`in_function` flag, but it always equals `current_function is not None`
(both are set together, and `\w+` captures are nonempty so the Python
truthiness test on the name never differs from the None test), so an
`Option` suffices. -/
structure ParseState where
  locations : List Nat
  functions : List FunctionChange
  current : Option (List Char)
  beforeLines : List (List Char)
  afterLines : List (List Char)
deriving DecidableEq

/-- Initial loop state. -/
def initParseState : ParseState := ⟨[], [], none, [], []⟩

/-- Python `'\n'.join`. -/
def joinNl : List (List Char) → List Char
  | [] => []
  | [w] => w
  | w :: ws => w ++ '\n' :: joinNl ws

/-- Commit the open function when it accumulated any lines (baseline.py
lines 188-193 and 227-232). -/
def commitIfOpen (st : ParseState) : ParseState :=
  match st.current with
  | some nm =>
    if st.beforeLines ≠ [] ∨ st.afterLines ≠ [] then
      { st with functions :=
          st.functions ++ [⟨nm, joinNl st.beforeLines, joinNl st.afterLines⟩] }
    else st
  | none => st

/-- One iteration of the parsing loop of `extract_file_info` (baseline.py
lines 169-224), for a line inside the file block. -/
def stepLine (st : ParseState) (line : List Char) : ParseState :=
  if "@@".toList.isPrefixOf line then
    match searchHunk line with
    | some (oldStart, _, rawCtx) =>
      let context := pyStrip rawCtx
      let st1 :=
        if isSubstring "def ".toList context then
          let st' := commitIfOpen st
          match searchDefName context with
          | some nm => { st' with current := some nm, beforeLines := [], afterLines := [] }
          | none => { st' with current := none }
        else st
      { st1 with locations := st1.locations ++ [oldStart] }
    | none => st
  else if "-".toList.isPrefixOf line && !("---".toList.isPrefixOf line) then
    if st.current.isSome then { st with beforeLines := st.beforeLines ++ [line.drop 1] }
    else st
  else if "+".toList.isPrefixOf line && !("+++".toList.isPrefixOf line) then
    if st.current.isSome then { st with afterLines := st.afterLines ++ [line.drop 1] }
    else st
  else if " ".toList.isPrefixOf line && st.current.isSome then
    { st with beforeLines := st.beforeLines ++ [line.drop 1],
              afterLines := st.afterLines ++ [line.drop 1] }
  else st

/-- The per-file record emitted by `extract_file_info` (baseline.py lines
155-161). -/
structure FileInfo where
  buggy_file_name : List Char
  buggy_file_path : List Char
  buggy_line_locations : List Nat
  changed_functions : List FunctionChange
  end_index : Nat
deriving DecidableEq

/-- Python `os.path.basename` on a POSIX path: the part after the last
slash. -/
def basename (p : List Char) : List Char :=
  (p.reverse.takeWhile (fun c => c ≠ '/')).reverse

/-- Python `sorted(set(l))` on naturals: ascending list of the distinct
elements. -/
def sortDedup (l : List Nat) : List Nat :=
  List.insertionSort (fun a b => a ≤ b) l.dedup

/-- The lines of one file block: everything after the marker line up to the
next `diff --git` marker or the end of input. -/
def blockBody (lines : List (List Char)) (start_idx : Nat) : List (List Char) :=
  (lines.drop (start_idx + 1)).takeWhile (fun l => !(diffMarker.isPrefixOf l))

/-- Model of `extract_file_info` (baseline.py lines 140-239). -/
def extract_file_info (lines : List (List Char)) (start_idx : Nat) : Option FileInfo :=
  match lines.drop start_idx with
  | [] => none
  | diff_line :: _ =>
    match searchBSlash diff_line with
    | none => none
    | some file_path =>
      let file_name := basename file_path
      if ".py".toList.isSuffixOf file_name then
        let body := blockBody lines start_idx
        let st := commitIfOpen (body.foldl stepLine initParseState)
        some { buggy_file_name := file_name
               buggy_file_path := file_path
               buggy_line_locations := sortDedup st.locations
               changed_functions := st.functions
               end_index := start_idx + 1 + body.length }
      else none

/-- The old-start value a single block line contributes: present exactly
when the line begins with `@@` and the hunk-header regex finds a match
somewhere in it. -/
def hunkLoc (l : List Char) : Option Nat :=
  if "@@".toList.isPrefixOf l then (searchHunk l).map (fun t => t.1) else none

/-- The raw old-start values contributed by a file block's lines, in
order. -/
def hunkOldStarts (body : List (List Char)) : List Nat :=
  body.filterMap hunkLoc

/-- Per-bug, per-style result record (eval.py lines 110-115). -/
structure StyleResult where
  total_samples : Nat
  correct_samples : Nat
  accuracy : ℚ
  individual_results : List Bool
deriving DecidableEq

/-- Build the per-style result from the ordered per-sample verdicts
(eval.py lines 99-115): `n = len(outputs)`, `c = sum(correct_samples)`,
`accuracy = c / n if n > 0 else 0`. -/
def mkStyleResult (verdicts : List Bool) : StyleResult :=
  { total_samples := verdicts.length
    correct_samples := verdicts.countP id
    accuracy :=
      if 0 < verdicts.length then (verdicts.countP id : ℚ) / (verdicts.length : ℚ) else 0
    individual_results := verdicts }

/-- The pure evaluation core of `evaluate_output_file` (eval.py lines
99-115): score each output against the expected fix, in order. -/
def evaluate_outputs (outputs : List (List Char)) (expected : List Char) : StyleResult :=
  mkStyleResult (outputs.map fun g => is_code_correct g expected)

/-- One per-group aggregate record (eval.py lines 202-209 and 219-226;
both branches compute the same fields by the same formulas). -/
structure AggregateStats where
  total_bugs : Nat
  total_samples : Nat
  total_correct : Nat
  overall_accuracy : ℚ
  bugs_with_at_least_one_correct : Nat
  bugs_solved_rate : ℚ
deriving DecidableEq

/-- Model of the per-group body of `aggregate_results` (eval.py lines
197-209): sums and counts over the group's per-bug records, with
zero-denominator ratios evaluating to 0. -/
def aggregate_group (rs : List StyleResult) : AggregateStats :=
  let total_samples := (rs.map (fun r => r.total_samples)).sum
  let total_correct := (rs.map (fun r => r.correct_samples)).sum
  let total_bugs := rs.length
  let solved := rs.countP (fun r => decide (0 < r.correct_samples))
  { total_bugs := total_bugs
    total_samples := total_samples
    total_correct := total_correct
    overall_accuracy :=
      if 0 < total_samples then (total_correct : ℚ) / (total_samples : ℚ) else 0
    bugs_with_at_least_one_correct := solved
    bugs_solved_rate :=
      if 0 < total_bugs then (solved : ℚ) / (total_bugs : ℚ) else 0 }

/-! ## Helper lemmas -/

/-- The Boolean substring scan agrees with `List.IsInfix`. -/
theorem isSubstring_iff (pat l : List Char) : isSubstring pat l = true ↔ pat <:+: l := by
  induction l with
  | nil =>
    simp only [isSubstring, List.isEmpty_iff, List.infix_nil]
  | cons c cs ih =>
    simp only [isSubstring, Bool.or_eq_true, List.isPrefixOf_iff_prefix, ih,
      List.infix_cons_iff]

/-- Every word emitted by the Python-split scan is nonempty and free of
whitespace characters, provided the accumulator is. -/
theorem pySplitGo_words (l : List Char) : ∀ cur : List Char,
    (∀ c ∈ cur, pySpace c = false) →
    ∀ w ∈ pySplitGo cur l, w ≠ [] ∧ ∀ c ∈ w, pySpace c = false := by
  induction l with
  | nil =>
    intro cur hcur w hw
    by_cases h0 : cur = []
    · simp [pySplitGo, h0] at hw
    · simp only [pySplitGo, if_neg h0] at hw
      rcases List.mem_singleton.mp hw with rfl
      refine ⟨by simpa using h0, fun c hc => hcur c (List.mem_reverse.mp hc)⟩
  | cons c cs ih =>
    intro cur hcur w hw
    by_cases hc : pySpace c
    · by_cases h0 : cur = []
      · rw [pySplitGo, if_pos hc, if_pos h0] at hw
        exact ih [] (by simp) w hw
      · rw [pySplitGo, if_pos hc, if_neg h0] at hw
        rcases List.mem_cons.mp hw with rfl | hw
        · exact ⟨by simpa using h0, fun d hd => hcur d (List.mem_reverse.mp hd)⟩
        · exact ih [] (by simp) w hw
    · rw [pySplitGo, if_neg hc] at hw
      refine ih (c :: cur) ?_ w hw
      intro d hd
      rcases List.mem_cons.mp hd with rfl | hd
      · exact Bool.eq_false_iff.mpr hc
      · exact hcur d hd

/-- Every character of a word emitted by the Python-split scan comes from
the accumulator or from the input. -/
theorem pySplitGo_chars (l : List Char) : ∀ (cur w : List Char),
    w ∈ pySplitGo cur l → ∀ c ∈ w, c ∈ cur ∨ c ∈ l := by
  induction l with
  | nil =>
    intro cur w hw c hc
    by_cases h0 : cur = []
    · simp [pySplitGo, h0] at hw
    · simp only [pySplitGo, if_neg h0] at hw
      rcases List.mem_singleton.mp hw with rfl
      exact Or.inl (List.mem_reverse.mp hc)
  | cons a cs ih =>
    intro cur w hw c hc
    by_cases ha : pySpace a
    · by_cases h0 : cur = []
      · rw [pySplitGo, if_pos ha, if_pos h0] at hw
        rcases ih [] w hw c hc with h | h
        · simp at h
        · exact Or.inr (List.mem_cons_of_mem a h)
      · rw [pySplitGo, if_pos ha, if_neg h0] at hw
        rcases List.mem_cons.mp hw with rfl | hw
        · exact Or.inl (List.mem_reverse.mp hc)
        · rcases ih [] w hw c hc with h | h
          · simp at h
          · exact Or.inr (List.mem_cons_of_mem a h)
    · rw [pySplitGo, if_neg ha] at hw
      rcases ih (a :: cur) w hw c hc with h | h
      · rcases List.mem_cons.mp h with rfl | h
        · exact Or.inr (List.mem_cons_self c cs)
        · exact Or.inl h
      · exact Or.inr (List.mem_cons_of_mem a h)

/-- Characters of a space-join are either the space separator or characters
of one of the joined words. -/
theorem mem_joinWords (ws : List (List Char)) (c : Char) (hc : c ∈ joinWords ws) :
    c = ' ' ∨ ∃ w ∈ ws, c ∈ w := by
  induction ws with
  | nil => simp [joinWords] at hc
  | cons w ws ih =>
    cases ws with
    | nil =>
      exact Or.inr ⟨w, List.mem_cons_self _ _, by simpa [joinWords] using hc⟩
    | cons v vs =>
      rw [show joinWords (w :: v :: vs) = w ++ ' ' :: joinWords (v :: vs) from rfl] at hc
      rcases List.mem_append.mp hc with h | h
      · exact Or.inr ⟨w, List.mem_cons_self _ _, h⟩
      · rcases List.mem_cons.mp h with rfl | h
        · exact Or.inl rfl
        · rcases ih h with h | ⟨u, hu, hcu⟩
          · exact Or.inl h
          · exact Or.inr ⟨u, List.mem_cons_of_mem _ hu, hcu⟩

/-- Away from line starts, the fence-stripping pass copies a newline-free
string unchanged (given enough fuel). -/
theorem subFenceF_false_id (pat : List Char) (l : List Char) :
    ∀ fuel : Nat, l.length ≤ fuel → (∀ c ∈ l, c ≠ '\n') →
    subFenceF pat fuel false l = l := by
  induction l with
  | nil =>
    intro fuel _ _
    cases fuel <;> rfl
  | cons c cs ih =>
    intro fuel hfuel hnl
    cases fuel with
    | zero => exact absurd hfuel (by simp)
    | succ f =>
      have hcn : (c == '\n') = false :=
        beq_eq_false_iff_ne.mpr (hnl c (List.mem_cons_self _ _))
      show (if false && pat.isPrefixOf (c :: cs) then _ else
        c :: subFenceF pat f (c == '\n') cs) = c :: cs
      rw [Bool.false_and, if_neg (by simp), hcn,
        ih f (Nat.succ_le_succ_iff.mp hfuel) (fun d hd => hnl d (List.mem_cons_of_mem c hd))]

/-- A full fence-stripping pass leaves a newline-free string that does not
start with the pattern unchanged. -/
theorem subFence_id (pat l : List Char) (hnl : ∀ c ∈ l, c ≠ '\n')
    (hpre : ¬ pat <+: l) : subFence pat l = l := by
  cases l with
  | nil => rfl
  | cons c cs =>
    have hp : pat.isPrefixOf (c :: cs) = false := by
      rw [Bool.eq_false_iff]
      intro hcontra
      exact hpre (List.isPrefixOf_iff_prefix.mp hcontra)
    have hcn : (c == '\n') = false :=
      beq_eq_false_iff_ne.mpr (hnl c (List.mem_cons_self _ _))
    show (if true && pat.isPrefixOf (c :: cs) then _ else
      c :: subFenceF pat (cs.length + 1) (c == '\n') cs) = c :: cs
    rw [Bool.true_and, hp, if_neg (by simp), hcn,
      subFenceF_false_id pat cs (cs.length + 1) (Nat.le_succ _)
        (fun d hd => hnl d (List.mem_cons_of_mem c hd))]

/-- The Python-split scan ignores leading whitespace. -/
theorem pySplitGo_dropWhile (l : List Char) :
    pySplitGo [] (l.dropWhile pySpace) = pySplitGo [] l := by
  induction l with
  | nil => rfl
  | cons c cs ih =>
    by_cases hc : pySpace c
    · rw [List.dropWhile_cons_of_pos hc, ih, pySplitGo, if_pos hc, if_pos rfl]
    · rw [List.dropWhile_cons_of_neg hc]

/-- On an all-whitespace input the Python-split scan just flushes its
accumulator. -/
theorem pySplitGo_all_space (t : List Char) : ∀ cur : List Char,
    (∀ c ∈ t, pySpace c = true) →
    pySplitGo cur t = if cur = [] then [] else [cur.reverse] := by
  induction t with
  | nil => intro cur _; rfl
  | cons c cs ih =>
    intro cur ht
    have hc : pySpace c = true := ht c (List.mem_cons_self _ _)
    have hcs : ∀ d ∈ cs, pySpace d = true := fun d hd => ht d (List.mem_cons_of_mem c hd)
    by_cases h0 : cur = []
    · rw [pySplitGo, if_pos hc, if_pos h0, ih [] hcs, if_pos rfl, if_pos h0]
    · rw [pySplitGo, if_pos hc, if_neg h0, ih [] hcs, if_pos rfl, if_neg h0]

/-- The Python-split scan ignores trailing whitespace. -/
theorem pySplitGo_append_space (l : List Char) : ∀ (t cur : List Char),
    (∀ c ∈ t, pySpace c = true) →
    pySplitGo cur (l ++ t) = pySplitGo cur l := by
  induction l with
  | nil =>
    intro t cur ht
    rw [List.nil_append, pySplitGo_all_space t cur ht]
    cases cur <;> simp [pySplitGo]
  | cons c cs ih =>
    intro t cur ht
    by_cases hc : pySpace c
    · by_cases h0 : cur = []
      · rw [List.cons_append, pySplitGo, if_pos hc, if_pos h0, ih t [] ht,
          pySplitGo, if_pos hc, if_pos h0]
      · rw [List.cons_append, pySplitGo, if_pos hc, if_neg h0, ih t [] ht,
          pySplitGo, if_pos hc, if_neg h0]
    · rw [List.cons_append, pySplitGo, if_neg hc, ih t (c :: cur) ht,
        pySplitGo, if_neg hc]

/-- Splitting is invariant under stripping. -/
theorem pySplit_pyStrip (l : List Char) : pySplit (pyStrip l) = pySplit l := by
  have hdecomp :
      (((l.dropWhile pySpace).reverse.dropWhile pySpace).reverse ++
        ((l.dropWhile pySpace).reverse.takeWhile pySpace).reverse) = l.dropWhile pySpace := by
    rw [← List.reverse_append, List.takeWhile_append_dropWhile, List.reverse_reverse]
  have htail : ∀ c ∈ ((l.dropWhile pySpace).reverse.takeWhile pySpace).reverse,
      pySpace c = true := by
    intro c hc
    exact List.mem_takeWhile_imp (List.mem_reverse.mp hc)
  calc pySplit (pyStrip l)
      = pySplitGo [] (pyStrip l) := rfl
    _ = pySplitGo [] (pyStrip l ++ ((l.dropWhile pySpace).reverse.takeWhile pySpace).reverse) :=
        (pySplitGo_append_space _ _ [] htail).symm
    _ = pySplitGo [] (l.dropWhile pySpace) := by rw [pyStrip, hdecomp]
    _ = pySplitGo [] l := pySplitGo_dropWhile l
    _ = pySplit l := rfl

/-- Scanning a whitespace-free word just loads it into the accumulator. -/
theorem pySplitGo_word (w : List Char) : ∀ (t cur : List Char),
    (∀ c ∈ w, pySpace c = false) →
    pySplitGo cur (w ++ t) = pySplitGo (w.reverse ++ cur) t := by
  induction w with
  | nil => intro t cur _; rfl
  | cons c cs ih =>
    intro t cur hw
    have hc : pySpace c = false := hw c (List.mem_cons_self _ _)
    rw [List.cons_append, pySplitGo, if_neg (by simp [hc]),
      ih t (c :: cur) (fun d hd => hw d (List.mem_cons_of_mem c hd))]
    simp

/-- Splitting a space-join of nonempty whitespace-free words recovers
exactly those words. -/
theorem pySplit_joinWords (ws : List (List Char))
    (h : ∀ w ∈ ws, w ≠ [] ∧ ∀ c ∈ w, pySpace c = false) :
    pySplit (joinWords ws) = ws := by
  induction ws with
  | nil => rfl
  | cons w ws ih =>
    have hw := h w (List.mem_cons_self _ _)
    have hws : ∀ u ∈ ws, u ≠ [] ∧ ∀ c ∈ u, pySpace c = false :=
      fun u hu => h u (List.mem_cons_of_mem w hu)
    cases ws with
    | nil =>
      show pySplitGo [] (joinWords [w]) = [w]
      rw [show joinWords [w] = w from rfl, ← List.append_nil w,
        pySplitGo_word w [] [] hw.2]
      rw [List.append_nil, List.append_nil, pySplitGo, if_neg (by simpa using hw.1),
        List.reverse_reverse]
    | cons v vs =>
      show pySplitGo [] (joinWords (w :: v :: vs)) = w :: v :: vs
      rw [show joinWords (w :: v :: vs) = w ++ ' ' :: joinWords (v :: vs) from rfl,
        pySplitGo_word w (' ' :: joinWords (v :: vs)) [] hw.2, List.append_nil]
      rw [pySplitGo, if_pos (by decide), if_neg (by simpa using hw.1),
        List.reverse_reverse]
      exact congrArg (w :: ·) (ih hws)

/-- Stripping only removes characters. -/
theorem mem_pyStrip {c : Char} {l : List Char} (h : c ∈ pyStrip l) : c ∈ l := by
  unfold pyStrip at h
  rw [List.mem_reverse] at h
  have h1 := (List.dropWhile_sublist _).subset h
  rw [List.mem_reverse] at h1
  exact (List.dropWhile_sublist _).subset h1

/-- Normalization fixes any space-join of nonempty whitespace-free words
that contains no comment marker and does not begin with a fence marker. -/
theorem normalize_of_canonical (ws : List (List Char))
    (hgood : ∀ w ∈ ws, w ≠ [] ∧ ∀ c ∈ w, pySpace c = false)
    (hhash : ('#' : Char) ∉ joinWords ws)
    (hpre : ¬ fencePlain <+: joinWords ws) :
    normalize_code (joinWords ws) = joinWords ws := by
  have hnl : ∀ c ∈ joinWords ws, c ≠ '\n' := by
    intro c hc hceq
    subst hceq
    rcases mem_joinWords ws '\n' hc with h' | ⟨w, hw, hcw⟩
    · exact absurd h' (by decide)
    · exact absurd ((hgood w hw).2 '\n' hcw) (by decide)
  have hpre2 : ¬ fencePython <+: joinWords ws := fun hp =>
    hpre ((by decide : fencePlain <+: fencePython).trans hp)
  have hnc : ('#' : Char) ∉ pyStrip (joinWords ws) := fun hm => hhash (mem_pyStrip hm)
  have hcont : (pyStrip (joinWords ws)).contains '#' = false := by simpa using hnc
  calc normalize_code (joinWords ws)
      = normCollapse (normHash (pyStrip (joinWords ws))) := by
        unfold normalize_code
        rw [subFence_id fencePython _ hnl hpre2, subFence_id fencePlain _ hnl hpre]
    _ = normCollapse (pyStrip (joinWords ws)) := by
        unfold normHash
        rw [hcont]
        simp
    _ = joinWords (pySplit (joinWords ws)) := by
        unfold normCollapse
        rw [pySplit_pyStrip]
    _ = joinWords ws := by rw [pySplit_joinWords ws hgood]

/-! ## Claim C2: idempotence of the normalizer -/

/-- Counterexample to C2 as stated: the normalizer is not idempotent.  The
input `" ```"` (a space before a fence marker) normalizes to `"```"` — the
leading space hides the marker from the line-start fence regexes, but the
whitespace collapse then exposes it — and a second pass deletes it, giving
the empty string. -/
theorem c2_counterexample :
    normalize_code (normalize_code (" ```".toList)) ≠ normalize_code (" ```".toList) := by
  decide

/-- C2 (amended): the normalizer is idempotent on every input whose
normalized form does not begin with a fence marker. -/
theorem c2_amended_idempotent (s : List Char)
    (h : ¬ fencePlain <+: normalize_code s) :
    normalize_code (normalize_code s) = normalize_code s := by
  have hy : normalize_code s =
      joinWords (pySplit (normHash (pyStrip (subFence fencePlain (subFence fencePython s))))) :=
    rfl
  rw [hy] at h ⊢
  refine normalize_of_canonical _ (fun w hw => pySplitGo_words _ [] (by simp) w hw) ?_ h
  intro hc
  rcases mem_joinWords _ '#' hc with h' | ⟨w, hw, hcw⟩
  · exact absurd h' (by decide)
  · have h4 : ('#' : Char) ∈ normHash (pyStrip (subFence fencePlain (subFence fencePython s))) := by
      rcases pySplitGo_chars _ [] w hw '#' hcw with h'' | h''
      · simp at h''
      · exact h''
    revert h4
    unfold normHash
    split_ifs with hcont
    · intro h4
      have := List.mem_takeWhile_imp (mem_pyStrip h4)
      simp at this
    · intro h4
      exact hcont (by simpa using h4)

/-- Witness for the amended C2 at a concrete input whose normalization does
not start with a fence marker. -/
theorem c2_witness :
    (¬ fencePlain <+: normalize_code ("x   =  1 ".toList)) ∧
      normalize_code (normalize_code ("x   =  1 ".toList)) =
        normalize_code ("x   =  1 ".toList) :=
  ⟨by decide, c2_amended_idempotent _ (by decide)⟩

/-! ## Claim C1: the equivalence-check decision rule -/

/-- C1: `is_code_correct` returns true exactly when the normalized forms are
equal, or the normalized expected fix is a (one-directional) substring of the
normalized generation, or the two normalized forms agree after folding double
quotes to single quotes; otherwise it returns false. -/
theorem c1_is_code_correct_iff (generated expected : List Char) :
    is_code_correct generated expected = true ↔
      (normalize_code generated = normalize_code expected ∨
       normalize_code expected <:+: normalize_code generated ∨
       (normalize_code generated).map quoteFold = (normalize_code expected).map quoteFold) := by
  unfold is_code_correct
  split_ifs with h1 h2 h3 <;>
    simp_all [isSubstring_iff]

/-! ## Claim C9: an empty normalized expectation matches everything -/

/-- C9: whenever the expected fix normalizes to the empty string, every
generated string is judged correct, via the containment rule. -/
theorem c9_empty_expected_always_correct (g e : List Char)
    (h : normalize_code e = []) : is_code_correct g e = true := by
  unfold is_code_correct
  rw [h]
  by_cases hg : normalize_code g = []
  · simp [hg]
  · have hsub : isSubstring [] (normalize_code g) = true :=
      (isSubstring_iff _ _).mpr List.nil_infix
    simp [hsub]

/-- Witness for C9 at a concrete input: a whitespace-only expected fix
normalizes to the empty string and any generation is accepted. -/
theorem c9_witness :
    normalize_code ("   ".toList) = [] ∧
      is_code_correct ("x = 1".toList) ("   ".toList) = true :=
  ⟨by decide, c9_empty_expected_always_correct _ _ (by decide)⟩

/-! ## Claim C3: the single-line-bug filter -/

/-- Success condition of the single-line filter exactly as claim C3 states
it, following the claim's words: the set of DISTINCT qualifying post-image
file paths has size exactly one, and exactly one removal and one addition
line are code lines. -/
def specDistinctSingleLineCond (patch : List Char) : Bool :=
  ((changedFiles patch).dedup.length = 1 : Bool) &&
  ((deletedCodeLines patch).length = 1 : Bool) &&
  ((addedCodeLines patch).length = 1 : Bool)

/-- A patch repeating the same qualifying file-marker line twice. -/
def c3Patch : List Char :=
  "diff --git a/x.py b/x.py\ndiff --git a/x.py b/x.py\n-old\n+new".toList

/-- Counterexample to C3 as stated: this patch names a single distinct
qualifying file (so the claim's condition holds) yet the filter fails,
because the source keeps the path list with duplicates and requires the
LIST length — here 2 — to be exactly 1. -/
theorem c3_counterexample :
    specDistinctSingleLineCond c3Patch = true ∧ is_single_line_bug c3Patch = none := by
  constructor
  · decide
  · decide

/-- C3 (amended): the filter succeeds iff the patch is nonempty, the list of
qualifying post-image paths — one entry per matching file-marker line, with
duplicates retained — has length exactly one, and exactly one removal and
one addition line are code lines; on success it returns that path and the
stripped deleted/added code lines. -/
theorem c3_amended_iff (patch : List Char) :
    ((is_single_line_bug patch).isSome = true ↔
      (patch ≠ [] ∧ (changedFiles patch).length = 1 ∧
        (deletedCodeLines patch).length = 1 ∧ (addedCodeLines patch).length = 1)) ∧
    (∀ info : SingleLineInfo, is_single_line_bug patch = some info →
      changedFiles patch = [info.file] ∧ deletedCodeLines patch = [info.deleted] ∧
        addedCodeLines patch = [info.added]) := by
  constructor
  · unfold is_single_line_bug
    by_cases hemp : patch.isEmpty
    · rw [if_pos hemp]
      have hp : patch = [] := by simpa using hemp
      simp [hp]
    · rw [if_neg hemp]
      have hne : patch ≠ [] := by simpa using hemp
      rcases hcf : changedFiles patch with _ | ⟨fp, _ | ⟨f2, cfr⟩⟩
      · simp [hne]
      · rcases hdel : deletedCodeLines patch with _ | ⟨d, _ | ⟨d2, dr⟩⟩ <;>
          rcases hadd : addedCodeLines patch with _ | ⟨a, _ | ⟨a2, ar⟩⟩ <;>
            simp [hne]
      · simp [hne]
  · intro info hinfo
    unfold is_single_line_bug at hinfo
    split_ifs at hinfo with hemp
    rcases hcf : changedFiles patch with _ | ⟨fp, _ | ⟨f2, cfr⟩⟩ <;> rw [hcf] at hinfo
    · exact absurd hinfo (by simp)
    · rcases hdel : deletedCodeLines patch with _ | ⟨d, _ | ⟨d2, dr⟩⟩ <;> rw [hdel] at hinfo
      · exact absurd hinfo (by simp)
      · rcases hadd : addedCodeLines patch with _ | ⟨a, _ | ⟨a2, ar⟩⟩ <;> rw [hadd] at hinfo
        · exact absurd hinfo (by simp)
        · have hi : info = ⟨fp, d, a⟩ := by simpa using hinfo.symm
          subst hi
          exact ⟨rfl, rfl, rfl⟩
        · exact absurd hinfo (by simp)
      · exact absurd hinfo (by simp)
    · exact absurd hinfo (by simp)

/-- A qualifying single-line patch. -/
def c3GoodPatch : List Char := "diff --git a/x.py b/x.py\n-old\n+new".toList

/-- Witness for the amended C3 at a concrete qualifying patch. -/
theorem c3_witness :
    (is_single_line_bug c3GoodPatch).isSome = true ∧
      changedFiles c3GoodPatch = ["x.py".toList] ∧
      deletedCodeLines c3GoodPatch = ["old".toList] ∧
      addedCodeLines c3GoodPatch = ["new".toList] :=
  ⟨(c3_amended_iff c3GoodPatch).1.mpr ⟨by decide, by decide, by decide, by decide⟩,
   (c3_amended_iff c3GoodPatch).2 ⟨"x.py".toList, "old".toList, "new".toList⟩ (by decide)⟩

/-! ## Claim C4: file-path extraction from the file-marker line -/

/-- C4 (code bug): on the grammar-conforming file-marker line
`diff --git a/lib/x.py b/lib/x.py` the extraction regex `b/(.+)$` matches at
the FIRST occurrence of `b/` in the line — here inside `a/lib/` — so both
extraction sites receive `"x.py b/lib/x.py"` instead of the post-image path
`"lib/x.py"`: the single-line filter stores it as the changed file and the
diff parser stores it as `buggy_file_path` (its basename check still
passes).  The repository itself compensates downstream:
extract-heuristics.py re-splits the stored path on `" b/"` and keeps the
last piece. -/
theorem c4_code_bug_eval :
    searchBSlash ("diff --git a/lib/x.py b/lib/x.py".toList) =
        some ("x.py b/lib/x.py".toList) ∧
      searchBSlash ("diff --git a/lib/x.py b/lib/x.py".toList) ≠
        some ("lib/x.py".toList) ∧
      (is_single_line_bug ("diff --git a/lib/x.py b/lib/x.py\n-old\n+new".toList)).map
          (fun i => i.file) = some ("x.py b/lib/x.py".toList) ∧
      (extract_file_info ["diff --git a/lib/x.py b/lib/x.py".toList] 0).map
          (fun fi => fi.buggy_file_path) = some ("x.py b/lib/x.py".toList) := by
  refine ⟨by decide, by decide, by decide, by decide⟩

/-! ## Claim C5: buggy-line locations -/

/-- Committing an open function does not touch the collected locations. -/
theorem commitIfOpen_locations (st : ParseState) :
    (commitIfOpen st).locations = st.locations := by
  cases hc : st.current with
  | none => simp only [commitIfOpen, hc]
  | some nm =>
    simp only [commitIfOpen, hc]
    split_ifs <;> rfl

/-- Committing an open function does not touch the function pointer. -/
theorem commitIfOpen_current (st : ParseState) :
    (commitIfOpen st).current = st.current := by
  cases hc : st.current with
  | none => simp only [commitIfOpen, hc]
  | some nm =>
    simp only [commitIfOpen, hc]
    split_ifs <;> simp [hc]

/-- Each parsing step appends exactly the line's hunk location (if any) to
the collected locations. -/
theorem stepLine_locations (st : ParseState) (line : List Char) :
    (stepLine st line).locations = st.locations ++ (hunkLoc line).toList := by
  unfold stepLine hunkLoc
  by_cases h1 : "@@".toList.isPrefixOf line
  · rw [if_pos h1, if_pos h1]
    rcases hs : searchHunk line with _ | ⟨o, n, ctx⟩
    · simp
    · dsimp only
      split_ifs with hdef
      · rcases hd : searchDefName (pyStrip ctx) with _ | nm <;>
          simp [hd, commitIfOpen_locations]
      · simp
  · rw [if_neg h1, if_neg h1]
    split_ifs <;> simp

/-- Folding the parsing step over a block accumulates exactly the block's
hunk locations, in order. -/
theorem foldl_stepLine_locations (body : List (List Char)) : ∀ st : ParseState,
    (body.foldl stepLine st).locations = st.locations ++ hunkOldStarts body := by
  induction body with
  | nil => intro st; simp [hunkOldStarts]
  | cons l ls ih =>
    intro st
    rw [List.foldl_cons, ih, stepLine_locations]
    rcases h : hunkLoc l with _ | v <;>
      simp [hunkOldStarts, List.filterMap_cons, h]

/-- Python `sorted(set(l))` is strictly ascending. -/
theorem sortDedup_sorted (l : List Nat) : (sortDedup l).Sorted (· < ·) := by
  have hs : (sortDedup l).Sorted (· ≤ ·) := List.sorted_insertionSort _ _
  have hn : (sortDedup l).Nodup :=
    ((List.perm_insertionSort _ _).nodup_iff).mpr (List.nodup_dedup l)
  exact hs.lt_of_le hn

/-- Python `sorted(set(l))` has the same members as `l`. -/
theorem mem_sortDedup (l : List Nat) (n : Nat) : n ∈ sortDedup l ↔ n ∈ l := by
  rw [sortDedup, (List.perm_insertionSort _ _).mem_iff, List.mem_dedup]

/-- A line conforming to the spec's hunk grammar fails the anchored match
here. -/
def c5BadLine : List Char := "@@ junk @@ -5 +6 @@".toList

/-- The two-line block used for the C5 counterexample. -/
def c5Lines : List (List Char) := ["diff --git a/x.py b/x.py".toList, c5BadLine]

/-- Counterexample to C5 as stated: the line `"@@ junk @@ -5 +6 @@"` does
not match the hunk-header pattern at the start of the line (the anchored
match fails — and the claim's written grammar
`@@ -<oldStart>[,<oldCount>] +<newStart>[,<newCount>] @@<context>` is a
sub-language of that anchored regex), so per the claim it should contribute
no location; but the source uses `re.search`, which finds the embedded
match `@@ -5 +6 @@` mid-line, and the block's locations come out `[5]`
instead of `[]`. -/
theorem c5_counterexample :
    parseHunkAt c5BadLine = none ∧
      (extract_file_info c5Lines 0).map (fun fi => fi.buggy_line_locations) = some [5] := by
  constructor
  · decide
  · decide

/-- C5 (amended): for every emitted file block, `buggy_line_locations` is
the duplicate-free ascending-sorted list of the old-start values of the
leftmost hunk-regex match found ANYWHERE within each block line beginning
with `@@` (the pattern is searched, not anchored at the line start, and
whitespace runs are allowed); a line beginning with `@@` in which the
search finds no match contributes nothing, regardless of function
boundaries. -/
theorem c5_amended_locations (lines : List (List Char)) (start_idx : Nat) (fi : FileInfo)
    (h : extract_file_info lines start_idx = some fi) :
    fi.buggy_line_locations.Sorted (· < ·) ∧
      (∀ n : Nat, n ∈ fi.buggy_line_locations ↔
        n ∈ hunkOldStarts (blockBody lines start_idx)) := by
  unfold extract_file_info at h
  rcases hdrop : lines.drop start_idx with _ | ⟨diff_line, rest⟩ <;> rw [hdrop] at h <;>
    dsimp only at h
  · exact absurd h (by simp)
  · rcases hbs : searchBSlash diff_line with _ | fp <;> rw [hbs] at h <;> dsimp only at h
    · exact absurd h (by simp)
    · split_ifs at h with hpy
      have hfi := Option.some.inj h
      subst hfi
      constructor
      · exact sortDedup_sorted _
      · intro n
        rw [mem_sortDedup, commitIfOpen_locations, foldl_stepLine_locations]
        simp [initParseState]

/-- A block with three well-formed hunk headers (locations 3, 1, 3). -/
def c5GoodLines : List (List Char) :=
  ["diff --git a/x.py b/x.py".toList, "@@ -3 +4 @@".toList,
   "@@ -1 +1 @@".toList, "@@ -3 +9 @@".toList]

/-- Witness for the amended C5 at a concrete block: locations [3, 1, 3]
come out as the sorted duplicate-free [1, 3]. -/
theorem c5_witness :
    (⟨"x.py".toList, "x.py".toList, [1, 3], [], 4⟩ : FileInfo).buggy_line_locations.Sorted
        (· < ·) ∧
      (∀ n : Nat, n ∈ (⟨"x.py".toList, "x.py".toList, [1, 3], [], 4⟩ :
          FileInfo).buggy_line_locations ↔
        n ∈ hunkOldStarts (blockBody c5GoodLines 0)) :=
  c5_amended_locations c5GoodLines 0 _ (by decide)

/-! ## Claim C6: the open-function pointer at hunk headers -/

/-- The file block used for the C6 counterexample: a hunk opening `foo`,
then a hunk whose context `other` has no function signature, then one more
removal line. -/
def c6Lines : List (List Char) :=
  ["diff --git a/x.py b/x.py".toList, "@@ -1 +1 @@ def foo():".toList,
   "-    a".toList, "@@ -5 +5 @@ other".toList, "-    b".toList]

/-- Counterexample to C6 as stated: the context `"other"` does not match a
function signature, so per the claim the pointer should be cleared at that
hunk and the following removal line `-    b` left unattributed; but the
source clears the pointer only when the context contains `"def "`, so the
line is still attributed to `foo` and the emitted function's before-text is
`"    a\n    b"`. -/
theorem c6_counterexample :
    isSubstring "def ".toList (pyStrip "other".toList) = false ∧
      (extract_file_info c6Lines 0).map (fun fi => fi.changed_functions) =
        some [⟨"foo".toList, "    a\n    b".toList, []⟩] := by
  constructor
  · decide
  · decide

/-- C6 (amended): at a well-formed hunk header the new function pointer is
`searchDefName context` when the stripped context contains `"def "` (so it
is cleared exactly when `"def "` is present but the signature regex fails),
and is left unchanged when the context does not contain `"def "`; moreover
when no function is open, every non-hunk line leaves the parser state
entirely unchanged. -/
theorem c6_amended_pointer :
    (∀ (st : ParseState) (line : List Char) (o n : Nat) (ctx : List Char),
      "@@".toList.isPrefixOf line = true →
      searchHunk line = some (o, n, ctx) →
      (stepLine st line).current =
        (if isSubstring "def ".toList (pyStrip ctx) then searchDefName (pyStrip ctx)
         else st.current)) ∧
    (∀ (st : ParseState) (line : List Char),
      st.current = none → ¬ "@@".toList.isPrefixOf line = true →
      stepLine st line = st) := by
  constructor
  · intro st line o n ctx h1 hs
    unfold stepLine
    rw [if_pos h1, hs]
    dsimp only
    split_ifs with hdef
    · rcases hd : searchDefName (pyStrip ctx) with _ | nm <;> rfl
    · rfl
  · intro st line hcur h1
    have hsome : st.current.isSome = false := by rw [hcur]; rfl
    unfold stepLine
    rw [if_neg h1]
    split_ifs <;> simp_all

/-- A parser state with the function `foo` open. -/
def c6State : ParseState := ⟨[], [], some ("foo".toList), [], []⟩

/-- Witness for the amended C6 at concrete inputs: a def-less context keeps
the pointer, a `"def "`-containing context that fails the signature regex
clears it, and a body line with no open function changes nothing. -/
theorem c6_witness :
    ((stepLine c6State ("@@ -1 +2 @@ stuff".toList)).current =
      (if isSubstring "def ".toList (pyStrip (" stuff".toList))
       then searchDefName (pyStrip (" stuff".toList)) else c6State.current)) ∧
    ((stepLine c6State ("@@ -3 +4 @@ a def broken".toList)).current =
      (if isSubstring "def ".toList (pyStrip (" a def broken".toList))
       then searchDefName (pyStrip (" a def broken".toList)) else c6State.current)) ∧
    (stepLine ⟨[], [], none, [], []⟩ ("-    dropped".toList) = ⟨[], [], none, [], []⟩) :=
  ⟨c6_amended_pointer.1 c6State _ 1 2 (" stuff".toList) (by decide) (by decide),
   c6_amended_pointer.1 c6State _ 3 4 (" a def broken".toList) (by decide) (by decide),
   c6_amended_pointer.2 _ _ rfl (by decide)⟩

/-! ## Claim C7: aggregation formulas -/

/-- C7: per-group aggregation reports the bug count, the sample and correct
sums, the sample-weighted overall accuracy, the count of bugs with at least
one correct sample, and the solved rate; on the two-bug scenario with
verdicts `[true, false, true]` and `[false, false]` this yields overall
accuracy 2/5, one solved bug, and solved rate 1/2. -/
theorem c7_aggregate_group_spec :
    (∀ rs : List StyleResult,
      (aggregate_group rs).total_bugs = rs.length ∧
      (aggregate_group rs).total_samples = (rs.map (fun r => r.total_samples)).sum ∧
      (aggregate_group rs).total_correct = (rs.map (fun r => r.correct_samples)).sum ∧
      (aggregate_group rs).overall_accuracy =
        ((((rs.map (fun r => r.correct_samples)).sum : ℕ) : ℚ) /
          (((rs.map (fun r => r.total_samples)).sum : ℕ) : ℚ)) ∧
      (aggregate_group rs).bugs_with_at_least_one_correct =
        rs.countP (fun r => decide (0 < r.correct_samples)) ∧
      (aggregate_group rs).bugs_solved_rate =
        ((rs.countP (fun r => decide (0 < r.correct_samples)) : ℚ) / (rs.length : ℚ))) ∧
    (aggregate_group [mkStyleResult [true, false, true],
        mkStyleResult [false, false]]).overall_accuracy = 2 / 5 ∧
    (aggregate_group [mkStyleResult [true, false, true],
        mkStyleResult [false, false]]).bugs_with_at_least_one_correct = 1 ∧
    (aggregate_group [mkStyleResult [true, false, true],
        mkStyleResult [false, false]]).bugs_solved_rate = 1 / 2 := by
  refine ⟨fun rs => ⟨rfl, rfl, rfl, ?_, rfl, ?_⟩,
    by simp [aggregate_group, mkStyleResult, List.countP_cons],
    by simp [aggregate_group, mkStyleResult, List.countP_cons],
    by simp [aggregate_group, mkStyleResult, List.countP_cons]⟩
  · show (if 0 < (rs.map (fun r => r.total_samples)).sum then _ else _) = _
    split_ifs with h
    · rfl
    · rw [Nat.not_lt, Nat.le_zero] at h
      rw [h]
      simp
  · show (if 0 < rs.length then _ else _) = _
    split_ifs with h
    · rfl
    · rw [Nat.not_lt, Nat.le_zero] at h
      rw [h]
      simp

/-! ## Claim C8: zero denominators never raise -/

/-- C8: aggregation is total, a zero denominator yields a zero ratio, and
aggregating an empty group yields all-zero statistics. -/
theorem c8_zero_denominators :
    aggregate_group [] = ⟨0, 0, 0, 0, 0, 0⟩ ∧
    (∀ rs : List StyleResult, (rs.map (fun r => r.total_samples)).sum = 0 →
      (aggregate_group rs).overall_accuracy = 0) ∧
    (∀ rs : List StyleResult, rs.length = 0 →
      (aggregate_group rs).bugs_solved_rate = 0) := by
  refine ⟨by decide, fun rs h => ?_, fun rs h => ?_⟩
  · show (if 0 < (rs.map (fun r => r.total_samples)).sum then _ else _) = _
    rw [h]
    simp
  · show (if 0 < rs.length then _ else _) = _
    rw [h]
    simp

/-- Witness for C8 at the concrete empty group. -/
theorem c8_witness :
    ((([] : List StyleResult).map (fun r => r.total_samples)).sum = 0 ∧
      (aggregate_group []).overall_accuracy = 0) ∧
    (([] : List StyleResult).length = 0 ∧ (aggregate_group []).bugs_solved_rate = 0) :=
  ⟨⟨rfl, c8_zero_denominators.2.1 [] rfl⟩, ⟨rfl, c8_zero_denominators.2.2 [] rfl⟩⟩

/-! ## Claim C10: per-bug result invariants -/

/-- C10: every per-bug result satisfies `total_samples` = number of
individual results, `correct_samples` = number of true verdicts (hence at
most `total_samples`), `accuracy` = `correct_samples / total_samples` (with
value 0 when there are no samples), and `individual_results` is the ordered
sequence of verdicts of the outputs. -/
theorem c10_per_bug_invariants (outputs : List (List Char)) (expected : List Char) :
    (evaluate_outputs outputs expected).total_samples =
      (evaluate_outputs outputs expected).individual_results.length ∧
    (evaluate_outputs outputs expected).correct_samples =
      (evaluate_outputs outputs expected).individual_results.count true ∧
    (evaluate_outputs outputs expected).correct_samples ≤
      (evaluate_outputs outputs expected).total_samples ∧
    (evaluate_outputs outputs expected).accuracy =
      ((evaluate_outputs outputs expected).correct_samples : ℚ) /
        ((evaluate_outputs outputs expected).total_samples : ℚ) ∧
    (evaluate_outputs outputs expected).individual_results =
      outputs.map (fun g => is_code_correct g expected) := by
  refine ⟨rfl, ?_, ?_, ?_, rfl⟩
  · show List.countP id _ = List.count true _
    rw [List.count]
    refine (List.countP_congr ?_).symm
    intro b _
    cases b <;> rfl
  · exact List.countP_le_length _
  · show (if 0 < (outputs.map fun g => is_code_correct g expected).length then _ else _) = _
    split_ifs with h
    · rfl
    · rw [Nat.not_lt, Nat.le_zero, List.length_eq_zero] at h
      show (0 : ℚ) =
        ((List.countP id (outputs.map fun g => is_code_correct g expected) : ℕ) : ℚ) /
          (((outputs.map fun g => is_code_correct g expected).length : ℕ) : ℚ)
      rw [h]
      simp

end Hafix
